/-
  Verification of the x402global settlement facilitator (P06-Full/python).

  Shallow embedding of:
  * facilitator.py : the settlement orchestrator state machine
    (`_handle_settlement_created`, `_handle_funds_pulled`, `_handle_vault_funded`,
     `_execute_swap`, `_process_blocks`, `_check_finality`, `_finalize_settlement`)
  * web3_utils.py  : `is_block_finalized`
  * server.py      : `handle_payment_submitted` (payment-proof validation)
  * x402_types.py  : `create_x402_payment_requirement`,
                     `parse_x402_payment_header`, `create_x402_payment_header`

  Python dictionaries are modelled as association lists with unique keys,
  addresses and identifiers as natural numbers, signed Python integers as `Int`
  where subtraction matters, and the exact real arithmetic underlying the
  monetary computations as single-truncation natural division (the Python code
  performs one `int(...)` truncation at the end of each product of positive
  rationals).  Transaction submission is modelled by appending an instruction
  to a trace; receipt statuses are supplied by an oracle `txOk`.
-/
import Mathlib

namespace X402

/-! ## Association lists (Python `dict` with unique keys) -/

/-- `dict.get(k)` on an association list. -/
def lookupA {α : Type} (l : List (Nat × α)) (k : Nat) : Option α :=
  match l with
  | [] => none
  | (k', v) :: t => if k' = k then some v else lookupA t k

/-- `dict[k] = v`: replace the binding in place, or append a fresh one. -/
def insertA {α : Type} (l : List (Nat × α)) (k : Nat) (v : α) : List (Nat × α) :=
  match l with
  | [] => [(k, v)]
  | (k', v') :: t => if k' = k then (k, v) :: t else (k', v') :: insertA t k v

/-- `dict.pop(k)`: remove the binding for `k`. -/
def eraseA {α : Type} (l : List (Nat × α)) (k : Nat) : List (Nat × α) :=
  match l with
  | [] => []
  | (k', v') :: t => if k' = k then t else (k', v') :: eraseA t k

/-! ## Facilitator data model (facilitator.py) -/

/-- The lifecycle status strings stored in the settlement records
(`"created"`, `"funds_pulled"`, `"funded"`, `"settled"`). -/
inductive Status where
  | created
  | fundsPulled
  | funded
  | settled
deriving DecidableEq, Repr

/-- Position of a status along `created → funds_pulled → funded → settled`. -/
def Status.rank : Status → Nat
  | .created => 0
  | .fundsPulled => 1
  | .funded => 2
  | .settled => 3

/-- One settlement record as stored by the facilitator
(`self.pending_settlements[...]` / `self.funded_settlements[...]`,
facilitator.py lines 153-162, 195-197).  The `funded_block` key is only
present once the settlement is funded, hence an `Option`. -/
structure SettlementRec where
  client : Nat
  seller : Nat
  assetToken : Nat
  assetAmount : Nat
  requiredUsdc : Nat
  maxEurc : Nat
  status : Status
  block : Nat
  fundedBlock : Option Int
deriving DecidableEq, Repr

/-- On-chain events observed by the facilitator.  Every event carries its
position `(blockNumber, logIndex)` in the log.  `vaultFunded` additionally
carries the `blockNumber` *argument* of the `VaultFunded` event, which is what
`_handle_vault_funded` stores as `funded_block`. -/
inductive Event where
  | settlementCreated (settlementId client seller assetToken : Nat)
      (assetAmount requiredUsdc maxEurc : Nat) (blockNumber logIndex : Nat)
  | fundsPulled (settlementId : Nat) (eurcAmount assetAmount : Nat)
      (blockNumber logIndex : Nat)
  | vaultFunded (settlementId client : Nat) (usdcAmount : Nat)
      (argBlockNumber : Int) (blockNumber logIndex : Nat)
deriving DecidableEq, Repr

def Event.isCreated : Event → Bool
  | .settlementCreated .. => true
  | _ => false

def Event.isPulled : Event → Bool
  | .fundsPulled .. => true
  | _ => false

def Event.isFunded : Event → Bool
  | .vaultFunded .. => true
  | _ => false

/-- Log position of an event, used for the `(block_number, log_index)`
ordering discussed in the spec. -/
def Event.key : Event → Nat × Nat
  | .settlementCreated _ _ _ _ _ _ _ b li => (b, li)
  | .fundsPulled _ _ _ b li => (b, li)
  | .vaultFunded _ _ _ _ b li => (b, li)

/-- On-chain instructions the facilitator submits
(`web3_utils.send_transaction` call sites in facilitator.py). -/
inductive Instr where
  | executeSwap (settlementId eurcAmount minUsdcOut : Nat)
  | confirmFinality (settlementId : Nat)
  | executeSettlement (settlementId : Nat)
deriving DecidableEq, Repr

/-- The facilitator's in-memory state: the two registries
`pending_settlements` and `funded_settlements`, plus the trace of submitted
on-chain instructions. -/
structure FacState where
  pending : List (Nat × SettlementRec)
  funded : List (Nat × SettlementRec)
  sent : List Instr
deriving DecidableEq, Repr

/-- `_execute_swap` (facilitator.py lines 203-244): look the settlement up in
`pending_settlements` and submit `executeSwap(id, max_eurc, required_usdc)`.
The transaction receipt only affects logging, not state. -/
def executeSwap (s : FacState) (settlementId : Nat) : FacState :=
  match lookupA s.pending settlementId with
  | none => s
  | some r =>
      { s with sent := s.sent ++ [Instr.executeSwap settlementId r.maxEurc r.requiredUsdc] }

/-- `_handle_settlement_created` (facilitator.py lines 140-162):
unconditionally (re)insert a fresh record with status `created`. -/
def handleSettlementCreated (e : Event) (s : FacState) : FacState :=
  match e with
  | .settlementCreated id client seller assetToken assetAmount requiredUsdc maxEurc blk _ =>
      let r : SettlementRec :=
        { client := client, seller := seller, assetToken := assetToken
          assetAmount := assetAmount, requiredUsdc := requiredUsdc
          maxEurc := maxEurc, status := .created, block := blk
          fundedBlock := none }
      { s with pending := insertA s.pending id r }
  | _ => s

/-- `_handle_funds_pulled` (facilitator.py lines 164-179): if the settlement is
pending, set its status to `funds_pulled` and immediately execute the swap. -/
def handleFundsPulled (e : Event) (s : FacState) : FacState :=
  match e with
  | .fundsPulled id _ _ _ _ =>
      match lookupA s.pending id with
      | none => s
      | some r =>
          executeSwap
            { s with pending := insertA s.pending id ({ r with status := .fundsPulled }) } id
  | _ => s

/-- `_handle_vault_funded` (facilitator.py lines 181-201): if the settlement is
pending, pop it, record `funded_block` from the event argument, set status
`funded` and move it to `funded_settlements`. -/
def handleVaultFunded (e : Event) (s : FacState) : FacState :=
  match e with
  | .vaultFunded id _ _ argBlockNumber _ _ =>
      match lookupA s.pending id with
      | none => s
      | some r =>
          { s with
            pending := eraseA s.pending id
            funded := insertA s.funded id
              { r with status := .funded, fundedBlock := some argBlockNumber } }
  | _ => s

/-- Dispatch one observed event to its handler. -/
def applyEvent (e : Event) (s : FacState) : FacState :=
  match e with
  | .settlementCreated .. => handleSettlementCreated e s
  | .fundsPulled .. => handleFundsPulled e s
  | .vaultFunded .. => handleVaultFunded e s

/-- Apply a sequence of events in the order given. -/
def applyEvents (es : List Event) (s : FacState) : FacState :=
  es.foldl (fun st e => applyEvent e st) s

/-- `_process_blocks` (facilitator.py lines 107-138): one poll window is
processed as three successive passes over the window's log — first every
`SettlementCreated` entry, then every `FundsPulled` entry, then every
`VaultFunded` entry — each pass in log order within its own event type. -/
def processBlocks (w : List Event) (s : FacState) : FacState :=
  let s1 := (w.filter Event.isCreated).foldl (fun st e => handleSettlementCreated e st) s
  let s2 := (w.filter Event.isPulled).foldl (fun st e => handleFundsPulled e st) s1
  (w.filter Event.isFunded).foldl (fun st e => handleVaultFunded e st) s2

/-- Status of a settlement as observable from the two registries
(`pending_settlements` first, matching the order the code consults them). -/
def statusOf (s : FacState) (settlementId : Nat) : Option Status :=
  match lookupA s.pending settlementId with
  | some r => some r.status
  | none => (lookupA s.funded settlementId).map (·.status)

/-! ## Finality (web3_utils.py, facilitator.py) -/

/-- `is_block_finalized` (web3_utils.py lines 279-285):
`(current_block - block_number) >= confirmations` over Python integers. -/
def isBlockFinalized (currentBlock blockNumber confirmations : Int) : Bool :=
  confirmations ≤ currentBlock - blockNumber

/-- The ids collected by `_check_finality` (facilitator.py lines 246-259):
settlements in `funded_settlements` with status `funded` whose `funded_block`
is finalized. -/
def finalizeTargets (s : FacState) (currentBlock confirmations : Int) : List Nat :=
  (s.funded.filter (fun p =>
      p.2.status == Status.funded &&
      match p.2.fundedBlock with
      | some b => isBlockFinalized currentBlock b confirmations
      | none => false)).map Prod.fst

/-- `_finalize_settlement` (facilitator.py lines 261-321): submit
`confirmFinality`; if its receipt succeeds, submit `executeSettlement`; only
if that receipt also succeeds, mark the settlement `settled`.  On any failed
receipt the function returns with the status unchanged. -/
def finalizeSettlement (txOk : Instr → Bool) (s : FacState) (settlementId : Nat) :
    FacState :=
  match lookupA s.funded settlementId with
  | none => s
  | some r =>
      let s1 := { s with sent := s.sent ++ [Instr.confirmFinality settlementId] }
      if txOk (Instr.confirmFinality settlementId) then
        let s2 := { s1 with sent := s1.sent ++ [Instr.executeSettlement settlementId] }
        if txOk (Instr.executeSettlement settlementId) then
          { s2 with funded := insertA s2.funded settlementId { r with status := .settled } }
        else s2
      else s1

/-- `_check_finality` (facilitator.py lines 246-259): collect the finalized
`funded` settlements, then finalize each one. -/
def checkFinality (txOk : Instr → Bool) (currentBlock confirmations : Int)
    (s : FacState) : FacState :=
  (finalizeTargets s currentBlock confirmations).foldl (finalizeSettlement txOk) s

/-! ## Payment proofs and the server-side validator (x402_types.py, server.py)

Strings (addresses, hex signatures, version tags) are modelled as lists of
byte values.  Python's float arithmetic on the monetary computations is
modelled as exact rational arithmetic with the single final `int(...)`
truncation; every product involved is of non-negative values, so `int` is
floor, i.e. one natural-number division of the assembled numerator. -/

/-- `PermitSignature` (x402_types.py lines 57-62). -/
structure PermitSig where
  deadline : Nat
  v : Nat
  r : List Nat
  s : List Nat
deriving DecidableEq, Repr

/-- `X402PaymentProof` (x402_types.py lines 27-39), with the
`permit_signature` dict holding the `PermitSignature` fields. -/
structure X402PaymentProof where
  version : List Nat
  client_address : List Nat
  payment_token : List Nat
  payment_token_symbol : List Nat
  max_payment_amount : Nat
  permit_signature : PermitSig
  timestamp : Nat
  settlement_id : Option (List Nat)
deriving DecidableEq, Repr

/-- `required_usdc` as computed in server.py lines 135-139 (and identically in
`create_x402_payment_requirement`, x402_types.py lines 88-92) with
`price_per_unit_usdc = 1.10`:
`int(asset_amount / 10**18 * 1.10 * 10**6)` in exact arithmetic. -/
def requiredUsdcOfAsset (assetAmount : Nat) : Nat :=
  assetAmount * 11 * 10 ^ 6 / (10 * 10 ^ 18)

/-- `max_eurc` as computed in server.py line 142:
`int(required_usdc * 1.10 * 1.1)` in exact arithmetic (rate 1.10, then a 10%
slippage buffer, one final truncation). -/
def maxEurcOfRequired (requiredUsdc : Nat) : Nat :=
  requiredUsdc * 11 * 11 / (10 * 10)

/-- Outcome of `handle_payment_submitted` (server.py lines 120-187):
HTTP 400 for an unparseable header, HTTP 400 with
`{"error": "Insufficient payment", required_usdc, max_eurc, provided_eurc}`
when the offered budget is below the computed minimum, otherwise the
settlement-creation path. -/
inductive PaymentOutcome where
  | invalidHeader
  | insufficientPayment (requiredUsdc maxEurc providedEurc : Nat)
  | settlementCreated (requiredUsdc maxEurc : Nat)
deriving DecidableEq, Repr

/-- `handle_payment_submitted` (server.py lines 120-187), up to and including
the accept/reject decision.  Note that no field of the proof other than
`max_payment_amount` is consulted. -/
def handlePaymentSubmitted (assetAmount : Nat) (proof : Option X402PaymentProof) :
    PaymentOutcome :=
  match proof with
  | none => .invalidHeader
  | some p =>
      let requiredUsdc := requiredUsdcOfAsset assetAmount
      let maxEurc := maxEurcOfRequired requiredUsdc
      if p.max_payment_amount < maxEurc then
        .insufficientPayment requiredUsdc maxEurc p.max_payment_amount
      else
        .settlementCreated requiredUsdc maxEurc

/-! ## Payment requirement builder (x402_types.py lines 64-113) -/

/-- `X402PaymentRequirement` (x402_types.py lines 8-25), restricted to the
fields the builder computes (the rest are echoed constants). -/
structure X402PaymentRequirement where
  settlement_token : Nat
  required_amount : Nat
  settlement_vault : Nat
  payment_deadline : Nat
  asset_token : Nat
  asset_amount : Nat
  seller : Nat
deriving DecidableEq, Repr

/-- `create_x402_payment_requirement` (x402_types.py lines 64-113).  The float
price `price_per_unit_usdc` is modelled exactly as the rational
`priceNum / priceDen`; the code computes
`int(asset_amount / 10**18 * price * 10**6)` with one final truncation and
`deadline = int((datetime.now() + timedelta(seconds=deadline_seconds)).timestamp())`. -/
def createX402PaymentRequirement (assetAmount priceNum priceDen : Nat)
    (sellerAddr assetTokenAddr vaultAddr usdcAddr : Nat)
    (now deadlineSeconds : Nat) : X402PaymentRequirement :=
  { settlement_token := usdcAddr
    required_amount := assetAmount * priceNum * 10 ^ 6 / (priceDen * 10 ^ 18)
    settlement_vault := vaultAddr
    payment_deadline := now + deadlineSeconds
    asset_token := assetTokenAddr
    asset_amount := assetAmount
    seller := sellerAddr }

/-! ## X-PAYMENT header codec (x402_types.py lines 136-169)

`create_x402_payment_header` is `"x402 " + base64(model_dump_json(proof))`;
`parse_x402_payment_header` checks the `"x402 "` prefix, base64-decodes the
remainder, JSON-parses it and validates it into an `X402PaymentProof`,
returning `None` on any failure.  Header and payload are byte lists (the JSON
text is ASCII for well-formed proofs, so UTF-8 encoding is the identity on the
byte values). -/

/-- The standard base64 alphabet: sextet value to ASCII byte. -/
def b64chr (i : Nat) : Nat :=
  if i < 26 then 65 + i
  else if i < 52 then 71 + i
  else if i < 62 then i - 4
  else if i = 62 then 43
  else if i = 63 then 47
  else 65

/-- ASCII byte back to sextet value (`none` off the alphabet). -/
def b64val (c : Nat) : Option Nat :=
  if 65 ≤ c ∧ c ≤ 90 then some (c - 65)
  else if 97 ≤ c ∧ c ≤ 122 then some (c - 71)
  else if 48 ≤ c ∧ c ≤ 57 then some (c + 4)
  else if c = 43 then some 62
  else if c = 47 then some 63
  else none

/-- `base64.b64encode` on a byte list: 3 bytes become 4 alphabet characters,
with `'='` (61) padding for a 1- or 2-byte tail. -/
def b64encode : List Nat → List Nat
  | [] => []
  | [a] => [b64chr (a / 4), b64chr (a % 4 * 16), 61, 61]
  | [a, b] => [b64chr (a / 4), b64chr (a % 4 * 16 + b / 16), b64chr (b % 16 * 4), 61]
  | a :: b :: c :: rest =>
      b64chr (a / 4) :: b64chr (a % 4 * 16 + b / 16) ::
        b64chr (b % 16 * 4 + c / 64) :: b64chr (c % 64) :: b64encode rest

/-- `base64.b64decode` on standard-alphabet input: groups of 4 characters,
with padding only in a final group. -/
def b64decode : List Nat → Option (List Nat)
  | [] => some []
  | c1 :: c2 :: c3 :: c4 :: rest =>
      if c3 = 61 ∧ c4 = 61 ∧ rest = [] then
        match b64val c1, b64val c2 with
        | some s1, some s2 => some [s1 * 4 + s2 / 16]
        | _, _ => none
      else if c4 = 61 ∧ rest = [] then
        match b64val c1, b64val c2, b64val c3 with
        | some s1, some s2, some s3 => some [s1 * 4 + s2 / 16, s2 % 16 * 16 + s3 / 4]
        | _, _, _ => none
      else
        match b64val c1, b64val c2, b64val c3, b64val c4 with
        | some s1, some s2, some s3, some s4 =>
            (b64decode rest).map
              (fun tl => (s1 * 4 + s2 / 16) :: (s2 % 16 * 16 + s3 / 4) :: (s3 % 4 * 64 + s4) :: tl)
        | _, _, _, _ => none
  | _ => none

/-- ASCII byte values of a literal string. -/
def lit (s : String) : List Nat := s.data.map Char.toNat

/-- Strip an expected literal prefix, returning the remainder. -/
def stripPre (l pre : List Nat) : Option (List Nat) :=
  match pre, l with
  | [], rest => some rest
  | p :: ps, c :: cs => if c = p then stripPre cs ps else none
  | _ :: _, [] => none

/-- Decimal rendering of a non-negative integer (`json.dumps` of an `int`). -/
def printNat (n : Nat) : List Nat :=
  if n = 0 then [48] else ((Nat.digits 10 n).reverse).map (· + 48)

/-- JSON string literal: quote, raw bytes, quote (no escapes are produced for
well-formed field values, which exclude `'"'` and `'\'`). -/
def printStr (s : List Nat) : List Nat := 34 :: s ++ [34]

/-- `null` or a JSON string, for the `Optional[str]` field. -/
def printOptStr : Option (List Nat) → List Nat
  | none => lit "null"
  | some s => printStr s

/-- `model_dump_json` of an `X402PaymentProof` (pydantic emits the fields in
declaration order, compact, with `null` for an unset optional). -/
def printHeadFields (version client_address payment_token payment_token_symbol : List Nat) :
    List Nat :=
  lit "\x7b\"version\":" ++ printStr version ++
  lit ",\"client_address\":" ++ printStr client_address ++
  lit ",\"payment_token\":" ++ printStr payment_token ++
  lit ",\"payment_token_symbol\":" ++ printStr payment_token_symbol

def printPermit (deadline v : Nat) (r s : List Nat) : List Nat :=
  lit "\x7b\"deadline\":" ++ printNat deadline ++
  lit ",\"v\":" ++ printNat v ++
  lit ",\"r\":" ++ printStr r ++
  lit ",\"s\":" ++ printStr s ++
  lit "\x7d"

def jsonPrintProof (p : X402PaymentProof) : List Nat :=
  printHeadFields p.version p.client_address p.payment_token p.payment_token_symbol ++
  lit ",\"max_payment_amount\":" ++ printNat p.max_payment_amount ++
  lit ",\"permit_signature\":" ++
    printPermit p.permit_signature.deadline p.permit_signature.v
      p.permit_signature.r p.permit_signature.s ++
  lit ",\"timestamp\":" ++ printNat p.timestamp ++
  lit ",\"settlement_id\":" ++ printOptStr p.settlement_id ++
  lit "\x7d"

/-- Read a JSON string body up to the closing quote. -/
def scanStr : List Nat → Option (List Nat × List Nat)
  | [] => none
  | c :: rest =>
      if c = 34 then some ([], rest)
      else (scanStr rest).map (fun q => (c :: q.1, q.2))

/-- Read a JSON string (opening quote included). -/
def readStr : List Nat → Option (List Nat × List Nat)
  | 34 :: rest => scanStr rest
  | _ => none

def isDigitByte (c : Nat) : Bool := 48 ≤ c ∧ c ≤ 57

/-- Read a JSON non-negative integer literal. -/
def readNat (l : List Nat) : Option (Nat × List Nat) :=
  let ds := l.takeWhile isDigitByte
  if ds = [] then none
  else some (Nat.ofDigits 10 ((ds.map (· - 48)).reverse), l.dropWhile isDigitByte)

/-- Read `null` or a JSON string. -/
def readOptStr (l : List Nat) : Option (Option (List Nat) × List Nat) :=
  match stripPre l (lit "null") with
  | some rest => some (none, rest)
  | none => (readStr l).map (fun q => (some q.1, q.2))

/-- The four leading string fields of the serialised proof. -/
structure ProofHead where
  version : List Nat
  client_address : List Nat
  payment_token : List Nat
  payment_token_symbol : List Nat
deriving DecidableEq, Repr

/-- Parse the opening brace and the four string fields of the proof JSON. -/
def readHead (l0 : List Nat) : Option (ProofHead × List Nat) :=
  (stripPre l0 (lit "\x7b\"version\":")).bind fun a1 =>
  (readStr a1).bind fun pv =>
  (stripPre pv.2 (lit ",\"client_address\":")).bind fun a2 =>
  (readStr a2).bind fun pca =>
  (stripPre pca.2 (lit ",\"payment_token\":")).bind fun a3 =>
  (readStr a3).bind fun ppt =>
  (stripPre ppt.2 (lit ",\"payment_token_symbol\":")).bind fun a4 =>
  (readStr a4).bind fun psym =>
  some (⟨pv.1, pca.1, ppt.1, psym.1⟩, psym.2)

/-- Parse the serialised `permit_signature` object
`\x7b"deadline":N,"v":N,"r":"...","s":"..."\x7d`. -/
def readPermit (l0 : List Nat) : Option (PermitSig × List Nat) :=
  (stripPre l0 (lit "\x7b\"deadline\":")).bind fun a1 =>
  (readNat a1).bind fun pdl =>
  (stripPre pdl.2 (lit ",\"v\":")).bind fun a2 =>
  (readNat a2).bind fun pvv =>
  (stripPre pvv.2 (lit ",\"r\":")).bind fun a3 =>
  (readStr a3).bind fun pr =>
  (stripPre pr.2 (lit ",\"s\":")).bind fun a4 =>
  (readStr a4).bind fun ps =>
  (stripPre ps.2 (lit "\x7d")).bind fun a5 =>
  some (⟨pdl.1, pvv.1, pr.1, ps.1⟩, a5)

/-- `json.loads` + pydantic validation specialised to the serialisation format
`model_dump_json` produces for an `X402PaymentProof` (the shape
`parse_x402_payment_header` must invert; any other input yields `none`). -/
def jsonParseProof (l0 : List Nat) : Option X402PaymentProof :=
  (readHead l0).bind fun ph =>
  (stripPre ph.2 (lit ",\"max_payment_amount\":")).bind fun a5 =>
  (readNat a5).bind fun pmax =>
  (stripPre pmax.2 (lit ",\"permit_signature\":")).bind fun a6 =>
  (readPermit a6).bind fun pps =>
  (stripPre pps.2 (lit ",\"timestamp\":")).bind fun a7 =>
  (readNat a7).bind fun pts =>
  (stripPre pts.2 (lit ",\"settlement_id\":")).bind fun a8 =>
  (readOptStr a8).bind fun psid =>
  (stripPre psid.2 (lit "\x7d")).bind fun a9 =>
  if a9 = [] then
    some { version := ph.1.version, client_address := ph.1.client_address
           payment_token := ph.1.payment_token
           payment_token_symbol := ph.1.payment_token_symbol
           max_payment_amount := pmax.1
           permit_signature := pps.1
           timestamp := pts.1, settlement_id := psid.1 }
  else none

/-- `create_x402_payment_header` (x402_types.py lines 157-169):
`"x402 " + base64(json)`. -/
def createX402PaymentHeader (p : X402PaymentProof) : List Nat :=
  lit "x402 " ++ b64encode (jsonPrintProof p)

/-- `parse_x402_payment_header` (x402_types.py lines 136-155): `None` unless
the header starts with `"x402 "` and the remainder decodes and validates. -/
def parseX402PaymentHeader (h : List Nat) : Option X402PaymentProof :=
  if (lit "x402 ").isPrefixOf h then
    match b64decode (h.drop 5) with
    | none => none
    | some bytes => jsonParseProof bytes
  else none

/-- A byte that may appear unescaped inside a JSON string produced by
`json.dumps`: printable ASCII other than `'"'` and `'\'`. -/
def jsonSafeByte (c : Nat) : Bool := 32 ≤ c ∧ c ≤ 126 ∧ c ≠ 34 ∧ c ≠ 92

/-- JSON-safe content of the `Optional[str]` field. -/
def jsonSafeOptStr : Option (List Nat) → Bool
  | none => true
  | some s => s.all jsonSafeByte

/-- Well-formedness of a proof for the header round trip: every string field
consists of JSON-safe ASCII bytes (true of the addresses, symbols and hex
strings the system actually sends). -/
def WFProof (p : X402PaymentProof) : Bool :=
  p.version.all jsonSafeByte && p.client_address.all jsonSafeByte &&
  p.payment_token.all jsonSafeByte && p.payment_token_symbol.all jsonSafeByte &&
  p.permit_signature.r.all jsonSafeByte && p.permit_signature.s.all jsonSafeByte &&
  jsonSafeOptStr p.settlement_id


/-! ## Derived notions used in the statements -/

/-- The status of a settlement as observable from outside (the code consults
`pending_settlements` first). -/
def eventsOrdered (w : List Event) : Prop :=
  List.Chain' (fun a b => a.key.1 < b.key.1 ∨ (a.key.1 = b.key.1 ∧ a.key.2 < b.key.2)) w

/-- Every reachable facilitator state satisfies this: registry keys are
unique (Python dict keys), `pending_settlements` holds only `created` or
`funds_pulled` records, `funded_settlements` only `funded` or `settled`
ones. -/
def WFState (s : FacState) : Prop :=
  (s.pending.map Prod.fst).Nodup ∧ (s.funded.map Prod.fst).Nodup ∧
  (∀ p ∈ s.pending, p.2.status = Status.created ∨ p.2.status = Status.fundsPulled) ∧
  (∀ p ∈ s.funded, p.2.status = Status.funded ∨ p.2.status = Status.settled)

/-! ## Concrete fixtures for counterexamples and witnesses -/

/-- A settlement freshly recorded by `_handle_settlement_created`. -/
def rec0 : SettlementRec :=
  { client := 21, seller := 22, assetToken := 23, assetAmount := 100
    requiredUsdc := 110, maxEurc := 133, status := .created, block := 10
    fundedBlock := none }

/-- A state holding exactly one pending settlement (id 1). -/
def s0 : FacState := { pending := [(1, rec0)], funded := [], sent := [] }

/-- A `FundsPulled` event for settlement 1 at log position (11, 0). -/
def fpEv : Event := .fundsPulled 1 120 100 11 0

/-- A `SettlementCreated` event for settlement 1 at log position (10, 0). -/
def ceEv : Event := .settlementCreated 1 21 22 23 100 110 133 10 0

/-- A `VaultFunded` event for settlement 1 at log position (12, 0). -/
def vfEv : Event := .vaultFunded 1 21 110 12 12 0

/-- Settlement 1 after funding at block 5. -/
def recF : SettlementRec := { rec0 with status := .funded, fundedBlock := some 5 }

/-- A state holding exactly one funded settlement. -/
def sF : FacState := { pending := [], funded := [(1, recF)], sent := [] }

/-- A receipt oracle under which every transaction reverts. -/
def allFail : Instr → Bool := fun _ => false

/-- A receipt oracle under which every transaction succeeds. -/
def allOk : Instr → Bool := fun _ => true

/-- A poll window, already in strictly increasing `(block, log_index)` order,
containing a `FundsPulled` event at (10, 0) followed by a
`SettlementCreated` event at (11, 0) for the same settlement. -/
def w4 : List Event :=
  [.fundsPulled 1 120 100 10 0, .settlementCreated 1 21 22 23 100 110 133 11 0]

/-- A well-formed concrete payment proof. -/
def pEx : X402PaymentProof :=
  { version := lit "1.0", client_address := lit "0xAb5801a7"
    payment_token := lit "0xEuRC", payment_token_symbol := lit "MockEURC"
    max_payment_amount := 133100000
    permit_signature :=
      { deadline := 1700000000, v := 27, r := lit "0xdeadbeef", s := lit "0xcafe" }
    timestamp := 1699999000, settlement_id := none }

/-- A payment proof whose permit deadline is 0 (in the past for any positive
validation time) but whose budget is ample. -/
def proofExpired : X402PaymentProof :=
  { pEx with max_payment_amount := 10 ^ 12
             permit_signature := { pEx.permit_signature with deadline := 0 } }

/-! ## Association-list lemmas -/

theorem lookupA_insertA_self {α : Type} (l : List (Nat × α)) (k : Nat) (v : α) :
    lookupA (insertA l k v) k = some v := by
  induction l with
  | nil => simp [insertA, lookupA]
  | cons h t ih =>
    obtain ⟨k', v'⟩ := h
    by_cases hk : k' = k
    · simp [insertA, hk, lookupA]
    · simp [insertA, hk, lookupA, ih]

theorem lookupA_insertA_ne {α : Type} (l : List (Nat × α)) (k k' : Nat) (v : α)
    (h : k ≠ k') : lookupA (insertA l k v) k' = lookupA l k' := by
  induction l with
  | nil => simp [insertA, lookupA, h]
  | cons hd t ih =>
    obtain ⟨k₀, v₀⟩ := hd
    by_cases hk : k₀ = k
    · subst hk
      simp [insertA, lookupA, h]
    · simp [insertA, hk, lookupA, ih]

theorem insertA_insertA_same {α : Type} (l : List (Nat × α)) (k : Nat) (v w : α) :
    insertA (insertA l k v) k w = insertA l k w := by
  induction l with
  | nil => simp [insertA]
  | cons hd t ih =>
    obtain ⟨k₀, v₀⟩ := hd
    by_cases hk : k₀ = k
    · simp [insertA, hk]
    · simp [insertA, hk, ih]


theorem lookupA_mem {α : Type} {l : List (Nat × α)} {k : Nat} {v : α}
    (h : lookupA l k = some v) : (k, v) ∈ l := by
  induction l with
  | nil => simp [lookupA] at h
  | cons hd t ih =>
    obtain ⟨k₀, v₀⟩ := hd
    by_cases hk : k₀ = k
    · subst hk
      simp [lookupA] at h
      simp [h]
    · simp [lookupA, hk] at h
      simp [ih h]

theorem mem_insertA {α : Type} {l : List (Nat × α)} {k : Nat} {v : α} {x : Nat × α}
    (h : x ∈ insertA l k v) : x = (k, v) ∨ x ∈ l := by
  induction l with
  | nil => simpa [insertA] using h
  | cons hd t ih =>
    obtain ⟨k₀, v₀⟩ := hd
    by_cases hk : k₀ = k
    · simp [insertA, hk] at h
      rcases h with h | h
      · exact Or.inl h
      · exact Or.inr (by simp [h])
    · simp [insertA, hk] at h
      rcases h with h | h
      · exact Or.inr (by simp [h])
      · rcases ih h with h' | h'
        · exact Or.inl h'
        · exact Or.inr (by simp [h'])

theorem mem_keys_insertA {α : Type} {l : List (Nat × α)} {k k' : Nat} {v : α}
    (h : k' ∈ (insertA l k v).map Prod.fst) : k' = k ∨ k' ∈ l.map Prod.fst := by
  simp only [List.mem_map] at h ⊢
  obtain ⟨x, hx, hfst⟩ := h
  rcases mem_insertA hx with h' | h'
  · subst h'
    exact Or.inl hfst.symm
  · exact Or.inr ⟨x, h', hfst⟩

theorem nodup_keys_insertA {α : Type} {l : List (Nat × α)} {k : Nat} {v : α}
    (h : (l.map Prod.fst).Nodup) : ((insertA l k v).map Prod.fst).Nodup := by
  induction l with
  | nil => simp [insertA]
  | cons hd t ih =>
    obtain ⟨k₀, v₀⟩ := hd
    simp only [List.map_cons, List.nodup_cons] at h
    by_cases hk : k₀ = k
    · subst hk
      simpa [insertA, List.nodup_cons] using h
    · rw [insertA, if_neg hk]
      simp only [List.map_cons, List.nodup_cons]
      refine ⟨fun hmem => ?_, ih h.2⟩
      rcases mem_keys_insertA hmem with h' | h'
      · exact hk h'
      · exact h.1 h'

theorem eraseA_sublist {α : Type} (l : List (Nat × α)) (k : Nat) :
    (eraseA l k).Sublist l := by
  induction l with
  | nil => simp [eraseA]
  | cons hd t ih =>
    obtain ⟨k₀, v₀⟩ := hd
    by_cases hk : k₀ = k
    · rw [eraseA, if_pos hk]
      exact List.sublist_cons_self _ _
    · rw [eraseA, if_neg hk]
      exact ih.cons₂ _

theorem nodup_keys_eraseA {α : Type} {l : List (Nat × α)} {k : Nat}
    (h : (l.map Prod.fst).Nodup) : ((eraseA l k).map Prod.fst).Nodup :=
  ((eraseA_sublist l k).map Prod.fst).nodup h

theorem mem_eraseA {α : Type} {l : List (Nat × α)} {k : Nat} {x : Nat × α}
    (h : x ∈ eraseA l k) : x ∈ l :=
  (eraseA_sublist l k).mem h

theorem lookupA_eraseA_self {α : Type} {l : List (Nat × α)} {k : Nat}
    (h : (l.map Prod.fst).Nodup) : lookupA (eraseA l k) k = none := by
  induction l with
  | nil => simp [eraseA, lookupA]
  | cons hd t ih =>
    obtain ⟨k₀, v₀⟩ := hd
    simp only [List.map_cons, List.nodup_cons] at h
    by_cases hk : k₀ = k
    · subst hk
      cases hl : lookupA t k₀ with
      | none => simp [eraseA, hl]
      | some w => exact absurd (List.mem_map_of_mem Prod.fst (lookupA_mem hl)) h.1
    · simp [eraseA, hk, lookupA, ih h.2]

theorem lookupA_eraseA_ne {α : Type} (l : List (Nat × α)) (k k' : Nat)
    (h : k ≠ k') : lookupA (eraseA l k) k' = lookupA l k' := by
  induction l with
  | nil => simp [eraseA]
  | cons hd t ih =>
    obtain ⟨k₀, v₀⟩ := hd
    by_cases hk : k₀ = k
    · subst hk
      simp [eraseA, lookupA, h]
    · simp only [eraseA, hk, if_neg, lookupA]
      by_cases hk' : k₀ = k'
      · simp [hk']
      · simp [hk', ih]

theorem lookupA_of_mem_nodup {α : Type} {l : List (Nat × α)} {k : Nat} {v : α}
    (hn : (l.map Prod.fst).Nodup) (h : (k, v) ∈ l) : lookupA l k = some v := by
  induction l with
  | nil => simp at h
  | cons hd t ih =>
    obtain ⟨k₀, v₀⟩ := hd
    simp only [List.map_cons, List.nodup_cons] at hn
    rcases List.mem_cons.mp h with h' | h'
    · obtain ⟨hk, hv⟩ := Prod.mk.injEq .. ▸ h'
      simp_all [lookupA]
    · have hkk : k₀ ≠ k := by
        rintro rfl
        exact hn.1 (List.mem_map_of_mem Prod.fst h')
      simp [lookupA, hkk, ih hn.2 h']


/-! ## Claim theorems -/

/-- C5: for every funded block `B`, chain height and confirmation count `N`,
`is_block_finalized B` returns true iff `current_block − B ≥ N`; in
particular a settlement funded at `B` is not eligible while
`current_block − B < N` and becomes eligible exactly at
`current_block − B = N`, and a `funded` settlement enters the finality
targets of `_check_finality` precisely under that condition. -/
theorem c5_finality_gating (currentBlock b n : Int) :
    (isBlockFinalized currentBlock b n = true ↔ n ≤ currentBlock - b) ∧
    (currentBlock - b < n → isBlockFinalized currentBlock b n = false) ∧
    (currentBlock - b = n → isBlockFinalized currentBlock b n = true) ∧
    (∀ (id : Nat) (r : SettlementRec), r.status = Status.funded →
      r.fundedBlock = some b →
      (id ∈ finalizeTargets ⟨[], [(id, r)], []⟩ currentBlock n ↔
        n ≤ currentBlock - b)) := by
  refine ⟨?_, ?_, ?_, ?_⟩
  · simp [isBlockFinalized]
  · intro h
    simp [isBlockFinalized]
    omega
  · intro h
    simp [isBlockFinalized]
    omega
  · intro id r hst hfb
    simp [finalizeTargets, hst, hfb, isBlockFinalized]

/-- C5 witness: at chain height 10, block 3 and 8 confirmations the block is
not finalized; with 7 confirmations it is, and the eligibility of a concrete
funded settlement flips accordingly. -/
theorem c5_finality_gating_witness :
    isBlockFinalized 10 3 8 = false ∧ isBlockFinalized 10 3 7 = true ∧
    (1 ∈ finalizeTargets ⟨[], [(1, recF)], []⟩ 100 3 ↔ (3 : Int) ≤ 100 - 5) :=
  ⟨(c5_finality_gating 10 3 8).2.1 (by decide),
   (c5_finality_gating 10 3 7).2.2.1 (by decide),
   (c5_finality_gating 100 5 3).2.2.2 1 recF (by decide) (by decide)⟩

/-- C6 counterexample: `proofExpired` has permit deadline 0 — in the past at
any positive validation time — yet `handle_payment_submitted` accepts it and
proceeds to settlement creation; no `DeadlineExpired` rejection exists in the
validator. -/
theorem c6_deadline_not_checked_cex :
    proofExpired.permit_signature.deadline = 0 ∧
    handlePaymentSubmitted (100 * 10 ^ 18) (some proofExpired) =
      PaymentOutcome.settlementCreated (110 * 10 ^ 6) 133100000 := by
  constructor
  · rfl
  · rfl

/-- C6 amended: the validator never examines the permit deadline — its
outcome is invariant under changing the deadline — and any proof whose
budget meets the computed minimum is accepted no matter how old its
deadline is. -/
theorem c6_validator_ignores_deadline (assetAmount : Nat) (p : X402PaymentProof)
    (d d' : Nat) :
    (handlePaymentSubmitted assetAmount
        (some { p with permit_signature := { p.permit_signature with deadline := d } }) =
      handlePaymentSubmitted assetAmount
        (some { p with permit_signature := { p.permit_signature with deadline := d' } })) ∧
    (maxEurcOfRequired (requiredUsdcOfAsset assetAmount) ≤ p.max_payment_amount →
      handlePaymentSubmitted assetAmount (some p) =
        PaymentOutcome.settlementCreated (requiredUsdcOfAsset assetAmount)
          (maxEurcOfRequired (requiredUsdcOfAsset assetAmount))) := by
  constructor
  · simp [handlePaymentSubmitted]
  · intro h
    simp only [handlePaymentSubmitted]
    rw [if_neg (by omega)]

/-- C6 amended witness: the expired-deadline proof is judged exactly like the
same proof with a far-future deadline, and is accepted. -/
theorem c6_validator_ignores_deadline_witness :
    (handlePaymentSubmitted (100 * 10 ^ 18)
        (some { proofExpired with permit_signature :=
          { proofExpired.permit_signature with deadline := 0 } }) =
      handlePaymentSubmitted (100 * 10 ^ 18)
        (some { proofExpired with permit_signature :=
          { proofExpired.permit_signature with deadline := 9999999999 } })) ∧
    handlePaymentSubmitted (100 * 10 ^ 18) (some proofExpired) =
      PaymentOutcome.settlementCreated (requiredUsdcOfAsset (100 * 10 ^ 18))
        (maxEurcOfRequired (requiredUsdcOfAsset (100 * 10 ^ 18))) :=
  ⟨(c6_validator_ignores_deadline (100 * 10 ^ 18) proofExpired 0 9999999999).1,
   (c6_validator_ignores_deadline (100 * 10 ^ 18) proofExpired 0 0).2 (by decide)⟩

/-- C7: validation accepts a proof iff its maximum payment amount is at least
the required settlement amount converted at the 1.10 rate and inflated by the
10% slippage buffer (`max_eurc`); a proof exactly at that minimum is
accepted, one unit below is rejected with the insufficient-payment error
carrying the required and provided amounts. -/
theorem c7_proof_validation_boundary (assetAmount : Nat) (p : X402PaymentProof) :
    (handlePaymentSubmitted assetAmount (some p) =
        PaymentOutcome.settlementCreated (requiredUsdcOfAsset assetAmount)
          (maxEurcOfRequired (requiredUsdcOfAsset assetAmount)) ↔
      maxEurcOfRequired (requiredUsdcOfAsset assetAmount) ≤ p.max_payment_amount) ∧
    (p.max_payment_amount = maxEurcOfRequired (requiredUsdcOfAsset assetAmount) →
      handlePaymentSubmitted assetAmount (some p) =
        PaymentOutcome.settlementCreated (requiredUsdcOfAsset assetAmount)
          (maxEurcOfRequired (requiredUsdcOfAsset assetAmount))) ∧
    (p.max_payment_amount + 1 = maxEurcOfRequired (requiredUsdcOfAsset assetAmount) →
      handlePaymentSubmitted assetAmount (some p) =
        PaymentOutcome.insufficientPayment (requiredUsdcOfAsset assetAmount)
          (maxEurcOfRequired (requiredUsdcOfAsset assetAmount)) p.max_payment_amount) := by
  refine ⟨?_, ?_, ?_⟩
  · constructor
    · intro h
      by_contra hlt
      simp only [handlePaymentSubmitted] at h
      rw [if_pos (by omega)] at h
      exact PaymentOutcome.noConfusion h
    · intro h
      simp only [handlePaymentSubmitted]
      rw [if_neg (by omega)]
  · intro h
    simp only [handlePaymentSubmitted]
    rw [if_neg (by omega)]
  · intro h
    simp only [handlePaymentSubmitted]
    rw [if_pos (by omega)]

/-- C7 witness: for 100 whole asset units the computed minimum is
133100000; a proof offering exactly that is accepted, one offering
133099999 is rejected with the amounts echoed. -/
theorem c7_proof_validation_boundary_witness :
    handlePaymentSubmitted (100 * 10 ^ 18) (some pEx) =
      PaymentOutcome.settlementCreated (requiredUsdcOfAsset (100 * 10 ^ 18))
        (maxEurcOfRequired (requiredUsdcOfAsset (100 * 10 ^ 18))) ∧
    handlePaymentSubmitted (100 * 10 ^ 18)
        (some { pEx with max_payment_amount := 133099999 }) =
      PaymentOutcome.insufficientPayment (requiredUsdcOfAsset (100 * 10 ^ 18))
        (maxEurcOfRequired (requiredUsdcOfAsset (100 * 10 ^ 18))) 133099999 :=
  ⟨(c7_proof_validation_boundary (100 * 10 ^ 18) pEx).2.1 (by decide),
   (c7_proof_validation_boundary (100 * 10 ^ 18)
      { pEx with max_payment_amount := 133099999 }).2.2 (by decide)⟩

/-- C9: when the orchestrator reacts to a `FundsPulled` event for a recorded
settlement, it appends exactly one `executeSwap` instruction to the trace,
with maximum spend equal to the settlement's `max_eurc` and minimum
acceptable output equal to its `required_usdc`; nothing else changes except
the stored status. -/
theorem c9_swap_bounds (s : FacState) (id eurcAmt assetAmt blk li : Nat)
    (r : SettlementRec) (h : lookupA s.pending id = some r) :
    applyEvent (Event.fundsPulled id eurcAmt assetAmt blk li) s =
      { pending := insertA s.pending id ({ r with status := Status.fundsPulled })
        funded := s.funded
        sent := s.sent ++ [Instr.executeSwap id r.maxEurc r.requiredUsdc] } := by
  simp [applyEvent, handleFundsPulled, h, executeSwap, lookupA_insertA_self]

/-- C9 witness: the single pending settlement of `s0` (max_eurc 133,
required_usdc 110) yields exactly the swap instruction bounded by 133 and
110. -/
theorem c9_swap_bounds_witness :
    applyEvent (Event.fundsPulled 1 120 100 11 0) s0 =
      { pending := insertA s0.pending 1 ({ rec0 with status := Status.fundsPulled })
        funded := s0.funded
        sent := s0.sent ++ [Instr.executeSwap 1 rec0.maxEurc rec0.requiredUsdc] } :=
  c9_swap_bounds s0 1 120 100 11 0 rec0 (by decide)


/-- C8: the requirement builder returns the requested quantity in whole asset
units (18 decimals) times the exact price `priceNum/priceDen`, rounded down
to the settlement currency's smallest unit (6 decimals), and a deadline of
`now + offset`; in particular 100 whole units at price 1.10 yield a required
amount of 110 × 10^6. -/
theorem c8_requirement_builder (a pn pd saddr taddr vaddr uaddr now off : Nat)
    (hpd : 0 < pd) :
    ((createX402PaymentRequirement a pn pd saddr taddr vaddr uaddr now off).required_amount =
      ⌊((a : ℚ) / 10 ^ 18 * ((pn : ℚ) / (pd : ℚ))) * 10 ^ 6⌋₊) ∧
    ((createX402PaymentRequirement a pn pd saddr taddr vaddr uaddr now off).payment_deadline =
      now + off) ∧
    ((createX402PaymentRequirement (100 * 10 ^ 18) 11 10 saddr taddr vaddr uaddr
        now off).required_amount = 110 * 10 ^ 6) := by
  refine ⟨?_, rfl, by norm_num [createX402PaymentRequirement]⟩
  show a * pn * 10 ^ 6 / (pd * 10 ^ 18) = _
  have hpd' : ((pd : ℚ)) ≠ 0 := by positivity
  have h1 : ((a : ℚ) / 10 ^ 18 * ((pn : ℚ) / (pd : ℚ))) * 10 ^ 6 =
      ((a * pn * 10 ^ 6 : ℕ) : ℚ) / ((pd * 10 ^ 18 : ℕ) : ℚ) := by
    push_cast
    field_simp
    ring
  rw [h1, Nat.floor_div_nat, Nat.floor_natCast]

/-- C8 witness: the concrete instance of the spec's worked example —
quantity 100 × 10^18 at price 11/10 with deadline offset 3600 — yields
required amount 110 × 10^6 and deadline `now + 3600`. -/
theorem c8_requirement_builder_witness :
    (createX402PaymentRequirement (100 * 10 ^ 18) 11 10 5 6 7 8 1700000000
        3600).required_amount =
      ⌊(((100 * 10 ^ 18 : ℕ) : ℚ) / 10 ^ 18 * (((11 : ℕ) : ℚ) / ((10 : ℕ) : ℚ))) * 10 ^ 6⌋₊ ∧
    (createX402PaymentRequirement (100 * 10 ^ 18) 11 10 5 6 7 8 1700000000
        3600).payment_deadline = 1700000000 + 3600 :=
  ⟨(c8_requirement_builder (100 * 10 ^ 18) 11 10 5 6 7 8 1700000000 3600 (by decide)).1,
   (c8_requirement_builder (100 * 10 ^ 18) 11 10 5 6 7 8 1700000000 3600 (by decide)).2.1⟩


/-! ## Orchestrator support lemmas -/

theorem handleFundsPulled_spec (s : FacState) (id eurcAmt assetAmt blk li : Nat)
    (r : SettlementRec) (h : lookupA s.pending id = some r) :
    applyEvent (Event.fundsPulled id eurcAmt assetAmt blk li) s =
      { pending := insertA s.pending id ({ r with status := Status.fundsPulled })
        funded := s.funded
        sent := s.sent ++ [Instr.executeSwap id r.maxEurc r.requiredUsdc] } := by
  simp [applyEvent, handleFundsPulled, h, executeSwap, lookupA_insertA_self]

theorem handleFundsPulled_miss (s : FacState) (id eurcAmt assetAmt blk li : Nat)
    (h : lookupA s.pending id = none) :
    applyEvent (Event.fundsPulled id eurcAmt assetAmt blk li) s = s := by
  simp [applyEvent, handleFundsPulled, h]

theorem handleVaultFunded_spec (s : FacState) (id client usdcAmt : Nat)
    (argBlk : Int) (blk li : Nat) (r : SettlementRec)
    (h : lookupA s.pending id = some r) :
    applyEvent (Event.vaultFunded id client usdcAmt argBlk blk li) s =
      { pending := eraseA s.pending id
        funded := insertA s.funded id
          ({ r with status := Status.funded, fundedBlock := some argBlk })
        sent := s.sent } := by
  simp [applyEvent, handleVaultFunded, h]

theorem handleVaultFunded_miss (s : FacState) (id client usdcAmt : Nat)
    (argBlk : Int) (blk li : Nat) (h : lookupA s.pending id = none) :
    applyEvent (Event.vaultFunded id client usdcAmt argBlk blk li) s = s := by
  simp [applyEvent, handleVaultFunded, h]

theorem wf_preserve_applyEvent (e : Event) (s : FacState) (hwf : WFState s)
    (he : e.isCreated = false) : WFState (applyEvent e s) := by
  obtain ⟨hn1, hn2, hp, hf⟩ := hwf
  cases e with
  | settlementCreated id c sl at_ aa ru me b li => simp [Event.isCreated] at he
  | fundsPulled id ea aa b li =>
    cases hl : lookupA s.pending id with
    | none => rw [handleFundsPulled_miss s id ea aa b li hl]; exact ⟨hn1, hn2, hp, hf⟩
    | some r =>
      rw [handleFundsPulled_spec s id ea aa b li r hl]
      refine ⟨nodup_keys_insertA hn1, hn2, ?_, hf⟩
      intro p hpmem
      rcases mem_insertA hpmem with h' | h'
      · subst h'
        exact Or.inr rfl
      · exact hp p h'
  | vaultFunded id c u ab b li =>
    cases hl : lookupA s.pending id with
    | none => rw [handleVaultFunded_miss s id c u ab b li hl]; exact ⟨hn1, hn2, hp, hf⟩
    | some r =>
      rw [handleVaultFunded_spec s id c u ab b li r hl]
      refine ⟨nodup_keys_eraseA hn1, nodup_keys_insertA hn2, ?_, ?_⟩
      · intro p hpmem
        exact hp p (mem_eraseA hpmem)
      · intro p hpmem
        rcases mem_insertA hpmem with h' | h'
        · subst h'
          exact Or.inl rfl
        · exact hf p h'

theorem status_mono_applyEvent (e : Event) (s : FacState) (hwf : WFState s)
    (he : e.isCreated = false) (id : Nat) (st : Status)
    (h : statusOf s id = some st) :
    ∃ st', statusOf (applyEvent e s) id = some st' ∧ st.rank ≤ st'.rank := by
  obtain ⟨hn1, hn2, hp, hf⟩ := hwf
  cases e with
  | settlementCreated id' c sl at_ aa ru me b li => simp [Event.isCreated] at he
  | fundsPulled id' ea aa b li =>
    cases hl : lookupA s.pending id' with
    | none => exact ⟨st, by rw [handleFundsPulled_miss s id' ea aa b li hl]; exact h, le_refl _⟩
    | some r =>
      rw [handleFundsPulled_spec s id' ea aa b li r hl]
      by_cases hid : id' = id
      · subst hid
        refine ⟨Status.fundsPulled, ?_, ?_⟩
        · simp [statusOf, lookupA_insertA_self]
        · have hst : st = r.status := by
            simp [statusOf, hl] at h
            exact h.symm
          subst hst
          rcases hp (id', r) (lookupA_mem hl) with h' | h'
          · rw [show r.status = Status.created from h']
            decide
          · rw [show r.status = Status.fundsPulled from h']
      · refine ⟨st, ?_, le_refl _⟩
        simpa [statusOf, lookupA_insertA_ne _ _ _ _ hid] using h
  | vaultFunded id' c u ab b li =>
    cases hl : lookupA s.pending id' with
    | none => exact ⟨st, by rw [handleVaultFunded_miss s id' c u ab b li hl]; exact h, le_refl _⟩
    | some r =>
      rw [handleVaultFunded_spec s id' c u ab b li r hl]
      by_cases hid : id' = id
      · subst hid
        refine ⟨Status.funded, ?_, ?_⟩
        · simp [statusOf, lookupA_eraseA_self hn1, lookupA_insertA_self]
        · have hst : st = r.status := by
            simp [statusOf, hl] at h
            exact h.symm
          subst hst
          rcases hp (id', r) (lookupA_mem hl) with h' | h'
          · rw [show r.status = Status.created from h']
            decide
          · rw [show r.status = Status.fundsPulled from h']
            decide
      · refine ⟨st, ?_, le_refl _⟩
        simpa [statusOf, lookupA_eraseA_ne _ _ _ hid,
          lookupA_insertA_ne _ _ _ _ hid] using h

theorem applyEvents_cons (e : Event) (t : List Event) (s : FacState) :
    applyEvents (e :: t) s = applyEvents t (applyEvent e s) := rfl

theorem foldl_handler_eq (P : Event → Bool) (hnd : Event → FacState → FacState)
    (hagree : ∀ e, P e = true → ∀ st, hnd e st = applyEvent e st) :
    ∀ (l : List Event) (s : FacState), (∀ e ∈ l, P e = true) →
      l.foldl (fun st e => hnd e st) s = l.foldl (fun st e => applyEvent e st) s := by
  intro l
  induction l with
  | nil => intro s _; rfl
  | cons e t ih =>
    intro s hall
    simp only [List.foldl_cons]
    rw [hagree e (hall e (by simp)) s]
    exact ih _ (fun e' he' => hall e' (by simp [he']))

theorem handleSettlementCreated_agree (e : Event) (he : e.isCreated = true)
    (st : FacState) : handleSettlementCreated e st = applyEvent e st := by
  cases e with
  | settlementCreated id c sl at_ aa ru me b li => rfl
  | fundsPulled id ea aa b li => simp [Event.isCreated] at he
  | vaultFunded id c u ab b li => simp [Event.isCreated] at he

theorem handleFundsPulled_agree (e : Event) (he : e.isPulled = true)
    (st : FacState) : handleFundsPulled e st = applyEvent e st := by
  cases e with
  | settlementCreated id c sl at_ aa ru me b li => simp [Event.isPulled] at he
  | fundsPulled id ea aa b li => rfl
  | vaultFunded id c u ab b li => simp [Event.isPulled] at he

theorem handleVaultFunded_agree (e : Event) (he : e.isFunded = true)
    (st : FacState) : handleVaultFunded e st = applyEvent e st := by
  cases e with
  | settlementCreated id c sl at_ aa ru me b li => simp [Event.isFunded] at he
  | fundsPulled id ea aa b li => simp [Event.isFunded] at he
  | vaultFunded id c u ab b li => rfl

theorem finalizeSettlement_success_eq (s : FacState) (id : Nat) (r : SettlementRec)
    (txOk : Instr → Bool) (h : lookupA s.funded id = some r)
    (h1 : txOk (Instr.confirmFinality id) = true)
    (h2 : txOk (Instr.executeSettlement id) = true) :
    finalizeSettlement txOk s id =
      { pending := s.pending
        funded := insertA s.funded id ({ r with status := Status.settled })
        sent := s.sent ++ [Instr.confirmFinality id] ++ [Instr.executeSettlement id] } := by
  unfold finalizeSettlement
  rw [h]
  simp [h1, h2]


/-- C1 counterexample: delivering the identical `FundsPulled` event for
settlement 1 a second time makes the orchestrator submit a second, duplicate
`executeSwap` instruction — event application is not idempotent as claimed. -/
theorem c1_duplicate_funds_pulled_cex :
    (applyEvent fpEv s0).sent = [Instr.executeSwap 1 133 110] ∧
    (applyEvent fpEv (applyEvent fpEv s0)).sent =
      [Instr.executeSwap 1 133 110, Instr.executeSwap 1 133 110] := by
  exact ⟨rfl, rfl⟩

/-- C1 amended: replaying an identical `FundsPulled` event leaves the two
registries and the stored status (`funds_pulled`) unchanged, but each
delivery — including the replay — submits one more `executeSwap`
instruction; the registry alone is idempotent, the instruction trace is
not. -/
theorem c1_funds_pulled_replay (s : FacState) (id eurcAmt assetAmt blk li : Nat)
    (r : SettlementRec) (h : lookupA s.pending id = some r) :
    (applyEvent (Event.fundsPulled id eurcAmt assetAmt blk li)
        (applyEvent (Event.fundsPulled id eurcAmt assetAmt blk li) s)).pending =
      (applyEvent (Event.fundsPulled id eurcAmt assetAmt blk li) s).pending ∧
    (applyEvent (Event.fundsPulled id eurcAmt assetAmt blk li)
        (applyEvent (Event.fundsPulled id eurcAmt assetAmt blk li) s)).funded =
      (applyEvent (Event.fundsPulled id eurcAmt assetAmt blk li) s).funded ∧
    statusOf (applyEvent (Event.fundsPulled id eurcAmt assetAmt blk li) s) id =
      some Status.fundsPulled ∧
    statusOf (applyEvent (Event.fundsPulled id eurcAmt assetAmt blk li)
        (applyEvent (Event.fundsPulled id eurcAmt assetAmt blk li) s)) id =
      some Status.fundsPulled ∧
    (applyEvent (Event.fundsPulled id eurcAmt assetAmt blk li)
        (applyEvent (Event.fundsPulled id eurcAmt assetAmt blk li) s)).sent =
      (applyEvent (Event.fundsPulled id eurcAmt assetAmt blk li) s).sent ++
        [Instr.executeSwap id r.maxEurc r.requiredUsdc] := by
  have h1 := handleFundsPulled_spec s id eurcAmt assetAmt blk li r h
  have hl1 : lookupA (applyEvent (Event.fundsPulled id eurcAmt assetAmt blk li) s).pending
      id = some ({ r with status := Status.fundsPulled }) := by
    rw [h1]
    exact lookupA_insertA_self _ _ _
  have h2 := handleFundsPulled_spec _ id eurcAmt assetAmt blk li _ hl1
  rw [h2, h1]
  refine ⟨?_, rfl, ?_, ?_, rfl⟩
  · simp [insertA_insertA_same]
  · simp [statusOf, lookupA_insertA_self]
  · simp [statusOf, insertA_insertA_same, lookupA_insertA_self]

/-- C1 amended witness: the concrete replay on `s0`. -/
theorem c1_funds_pulled_replay_witness :
    (applyEvent fpEv (applyEvent fpEv s0)).pending = (applyEvent fpEv s0).pending ∧
    (applyEvent fpEv (applyEvent fpEv s0)).funded = (applyEvent fpEv s0).funded ∧
    statusOf (applyEvent fpEv s0) 1 = some Status.fundsPulled ∧
    statusOf (applyEvent fpEv (applyEvent fpEv s0)) 1 = some Status.fundsPulled ∧
    (applyEvent fpEv (applyEvent fpEv s0)).sent =
      (applyEvent fpEv s0).sent ++ [Instr.executeSwap 1 rec0.maxEurc rec0.requiredUsdc] :=
  c1_funds_pulled_replay s0 1 120 100 11 0 rec0 (by decide)

/-- C2 counterexample: the event sequence `created, funds_pulled, created`
(a replay of the `SettlementCreated` event after the settlement has
advanced) drives the observed status from `funds_pulled` back to `created` —
a regression along the lifecycle order. -/
theorem c2_status_regression_cex :
    statusOf (applyEvents [ceEv, fpEv] ⟨[], [], []⟩) 1 = some Status.fundsPulled ∧
    statusOf (applyEvents [ceEv, fpEv, ceEv] ⟨[], [], []⟩) 1 = some Status.created ∧
    Status.rank Status.created < Status.rank Status.fundsPulled := by
  exact ⟨rfl, rfl, by decide⟩

/-- C2 amended: over any sequence of `FundsPulled` and `VaultFunded` events
(no `SettlementCreated` replays), the observed status of every settlement in
a well-formed registry is non-decreasing along
`created → funds_pulled → funded → settled`; only a replayed
`SettlementCreated` event can regress it. -/
theorem c2_status_monotone (es : List Event) (s : FacState) (id : Nat)
    (st : Status) (hwf : WFState s) (hnc : ∀ e ∈ es, e.isCreated = false)
    (h : statusOf s id = some st) :
    ∃ st', statusOf (applyEvents es s) id = some st' ∧ st.rank ≤ st'.rank := by
  induction es generalizing s st with
  | nil => exact ⟨st, h, le_refl _⟩
  | cons e t ih =>
    have he : e.isCreated = false := hnc e (by simp)
    obtain ⟨st1, h1, hr1⟩ := status_mono_applyEvent e s hwf he id st h
    obtain ⟨st2, h2, hr2⟩ := ih (applyEvent e s) st1
      (wf_preserve_applyEvent e s hwf he)
      (fun e' he' => hnc e' (by simp [he'])) h1
    exact ⟨st2, by simpa [applyEvents_cons] using h2, le_trans hr1 hr2⟩

/-- C2 amended witness: the pull-then-fund sequence on `s0` advances the
status of settlement 1 monotonically starting from `created`. -/
theorem c2_status_monotone_witness :
    ∃ st', statusOf (applyEvents [fpEv, vfEv] s0) 1 = some st' ∧
      Status.rank Status.created ≤ st'.rank :=
  c2_status_monotone [fpEv, vfEv] s0 1 Status.created
    (by unfold WFState; refine ⟨by decide, by decide, by decide, by decide⟩)
    (by decide) (by decide)

/-- C3 counterexample: with the `confirmFinality` transaction reverting, the
finality-check loop re-submits the identical `confirmFinality` instruction
for the same settlement on the next poll tick — a reverted finalization step
is silently retried with identical parameters. -/
theorem c3_retry_after_revert_cex :
    (checkFinality allFail 100 3 sF).sent = [Instr.confirmFinality 1] ∧
    (checkFinality allFail 100 3 (checkFinality allFail 100 3 sF)).sent =
      [Instr.confirmFinality 1, Instr.confirmFinality 1] := by
  exact ⟨rfl, rfl⟩

/-- C3 amended: when both finalization transactions succeed, the settlement
is marked `settled` and is never again collected by `_check_finality` (the
hand-off to settlement execution happens exactly once); a *reverted* step,
by contrast, leaves the status at `funded` and is retried on the next tick
(see the counterexample). -/
theorem c3_finalize_once_on_success (s : FacState) (id : Nat) (r : SettlementRec)
    (txOk : Instr → Bool) (hn : (s.funded.map Prod.fst).Nodup)
    (h : lookupA s.funded id = some r)
    (h1 : txOk (Instr.confirmFinality id) = true)
    (h2 : txOk (Instr.executeSettlement id) = true) :
    lookupA (finalizeSettlement txOk s id).funded id =
      some ({ r with status := Status.settled }) ∧
    ∀ currentBlock confirmations,
      id ∉ finalizeTargets (finalizeSettlement txOk s id) currentBlock confirmations := by
  rw [finalizeSettlement_success_eq s id r txOk h h1 h2]
  refine ⟨lookupA_insertA_self _ _ _, ?_⟩
  intro currentBlock confirmations hmem
  simp only [finalizeTargets, List.mem_map] at hmem
  obtain ⟨p, hpfil, hpid⟩ := hmem
  have hpmem := (List.mem_filter.mp hpfil).1
  have hppred := (List.mem_filter.mp hpfil).2
  have hstat : p.2.status = Status.funded := by
    have := (Bool.and_eq_true _ _).mp hppred |>.1
    exact beq_iff_eq.mp this
  have hn' : (((insertA s.funded id ({ r with status := Status.settled })).map
      Prod.fst)).Nodup := nodup_keys_insertA hn
  have hlook : lookupA (insertA s.funded id ({ r with status := Status.settled })) id =
      some p.2 := by
    have : (id, p.2) ∈ insertA s.funded id ({ r with status := Status.settled }) := by
      have : p = (id, p.2) := by
        cases p
        simp_all
      exact this ▸ hpmem
    exact lookupA_of_mem_nodup hn' this
  rw [lookupA_insertA_self] at hlook
  have : p.2 = { r with status := Status.settled } := by
    injection hlook with h'
    exact h'.symm
  rw [this] at hstat
  exact Status.noConfusion (show Status.settled = Status.funded from hstat)

/-- C3 amended witness: with all receipts successful, settlement 1 of `sF`
is settled by `_finalize_settlement` and no longer a finality target at any
later chain height. -/
theorem c3_finalize_once_on_success_witness :
    lookupA (finalizeSettlement allOk sF 1).funded 1 =
      some ({ recF with status := Status.settled }) ∧
    ∀ currentBlock confirmations,
      1 ∉ finalizeTargets (finalizeSettlement allOk sF 1) currentBlock confirmations :=
  c3_finalize_once_on_success sF 1 recF allOk (by decide) (by decide) rfl rfl

/-- C4 counterexample: the window `w4` is already in strictly increasing
`(block, log_index)` order, yet `_process_blocks` — which replays the window
grouped by event type, not sorted by position — produces a different final
state than applying the window's events in that order: the grouped replay
resurrects the settlement first and then reacts to the stale `FundsPulled`
event, issuing a swap that in-order delivery would not issue. -/
theorem c4_not_in_order_cex :
    eventsOrdered w4 ∧ processBlocks w4 ⟨[], [], []⟩ ≠ applyEvents w4 ⟨[], [], []⟩ := by
  constructor
  · unfold eventsOrdered w4
    simp [Event.key]
  · decide

/-- C4 amended: `_process_blocks` applies a poll window's events grouped by
event type — every `SettlementCreated` entry first, then every
`FundsPulled`, then every `VaultFunded`, each group in delivery order — i.e.
it equals in-order application of the type-reordered window, not of the
`(block, log_index)`-ordered one. -/
theorem c4_process_blocks_by_type (w : List Event) (s : FacState) :
    processBlocks w s =
      applyEvents (w.filter Event.isCreated ++ w.filter Event.isPulled ++
        w.filter Event.isFunded) s := by
  show
    (List.filter Event.isFunded w).foldl (fun st e => handleVaultFunded e st)
      ((List.filter Event.isPulled w).foldl (fun st e => handleFundsPulled e st)
        ((List.filter Event.isCreated w).foldl (fun st e => handleSettlementCreated e st) s)) = _
  unfold applyEvents
  rw [List.foldl_append, List.foldl_append]
  rw [foldl_handler_eq Event.isCreated handleSettlementCreated
      handleSettlementCreated_agree (w.filter Event.isCreated) s
      (fun e he => (List.mem_filter.mp he).2)]
  rw [foldl_handler_eq Event.isPulled handleFundsPulled
      handleFundsPulled_agree (w.filter Event.isPulled) _
      (fun e he => (List.mem_filter.mp he).2)]
  rw [foldl_handler_eq Event.isFunded handleVaultFunded
      handleVaultFunded_agree (w.filter Event.isFunded) _
      (fun e he => (List.mem_filter.mp he).2)]


/-! ## Header codec lemmas -/

theorem b64val_b64chr : ∀ s, s < 64 → b64val (b64chr s) = some s := by decide

theorem b64chr_ne_61 (s : Nat) : b64chr s ≠ 61 := by
  unfold b64chr
  split_ifs <;> omega

theorem b64_roundtrip : ∀ l : List Nat, (∀ x ∈ l, x < 256) →
    b64decode (b64encode l) = some l
  | [] => fun _ => rfl
  | [a] => fun h => by
      have ha : a < 256 := h a (by simp)
      rw [show b64encode [a] = [b64chr (a / 4), b64chr (a % 4 * 16), 61, 61] from rfl]
      rw [b64decode]
      rw [if_pos ⟨rfl, rfl, rfl⟩]
      rw [b64val_b64chr (a / 4) (by omega), b64val_b64chr (a % 4 * 16) (by omega)]
      simp only [Option.some.injEq, List.cons.injEq, and_true]
      omega
  | [a, b] => fun h => by
      have ha : a < 256 := h a (by simp)
      have hb : b < 256 := h b (by simp)
      rw [show b64encode [a, b] =
        [b64chr (a / 4), b64chr (a % 4 * 16 + b / 16), b64chr (b % 16 * 4), 61] from rfl]
      rw [b64decode]
      rw [if_neg (by rintro ⟨h3, -, -⟩; exact b64chr_ne_61 _ h3)]
      rw [if_pos ⟨rfl, rfl⟩]
      rw [b64val_b64chr (a / 4) (by omega), b64val_b64chr (a % 4 * 16 + b / 16) (by omega),
        b64val_b64chr (b % 16 * 4) (by omega)]
      simp only [Option.some.injEq, List.cons.injEq, and_true]
      omega
  | a :: b :: c :: rest => fun h => by
      have ha : a < 256 := h a (by simp)
      have hb : b < 256 := h b (by simp)
      have hc : c < 256 := h c (by simp)
      have ih := b64_roundtrip rest (fun x hx => h x (by simp [hx]))
      rw [show b64encode (a :: b :: c :: rest) =
        b64chr (a / 4) :: b64chr (a % 4 * 16 + b / 16) ::
          b64chr (b % 16 * 4 + c / 64) :: b64chr (c % 64) :: b64encode rest from rfl]
      rw [b64decode]
      rw [if_neg (by rintro ⟨h3, -, -⟩; exact b64chr_ne_61 _ h3)]
      rw [if_neg (by rintro ⟨h4, -⟩; exact b64chr_ne_61 _ h4)]
      rw [b64val_b64chr (a / 4) (by omega), b64val_b64chr (a % 4 * 16 + b / 16) (by omega),
        b64val_b64chr (b % 16 * 4 + c / 64) (by omega), b64val_b64chr (c % 64) (by omega)]
      simp only [ih, Option.map_some', Option.some.injEq, List.cons.injEq, eq_self_iff_true,
        and_true]
      omega

theorem stripPre_append (pre rest : List Nat) : stripPre (pre ++ rest) pre = some rest := by
  induction pre with
  | nil => simp [stripPre]
  | cons p ps ih => simp [stripPre, ih]

theorem scanStr_append (s rest : List Nat) (h : ∀ c ∈ s, c ≠ 34) :
    scanStr (s ++ 34 :: rest) = some (s, rest) := by
  induction s with
  | nil => simp [scanStr]
  | cons c t ih =>
    have hc : c ≠ 34 := h c (by simp)
    simp only [List.cons_append, scanStr, if_neg hc, List.append_eq]
    rw [ih (fun c' hc' => h c' (by simp [hc']))]
    rfl

theorem readStr_append (s rest : List Nat) (h : ∀ c ∈ s, c ≠ 34) :
    readStr (printStr s ++ rest) = some (s, rest) := by
  have : printStr s ++ rest = 34 :: (s ++ 34 :: rest) := by
    simp [printStr]
  rw [this, readStr]
  exact scanStr_append s rest h

theorem takeWhile_append_all {p : Nat → Bool} (xs ys : List Nat)
    (hxs : ∀ x ∈ xs, p x = true) (hys : p (ys.headD 0) = false) :
    (xs ++ ys).takeWhile p = xs ∧ (xs ++ ys).dropWhile p = ys := by
  induction xs with
  | nil =>
    cases ys with
    | nil => simp
    | cons y t =>
      simp only [List.headD_cons] at hys
      simp [List.takeWhile, List.dropWhile, hys]
  | cons x t ih =>
    have hx : p x = true := hxs x (by simp)
    have := ih (fun x' hx' => hxs x' (by simp [hx'])) 
    simp [List.takeWhile_cons, List.dropWhile_cons, hx, this.1, this.2]

theorem printNat_digits (n : Nat) : ∀ c ∈ printNat n, isDigitByte c = true := by
  intro c hc
  unfold printNat at hc
  by_cases h0 : n = 0
  · simp [h0] at hc
    simp [hc, isDigitByte]
  · rw [if_neg h0] at hc
    simp only [List.mem_map, List.mem_reverse] at hc
    obtain ⟨d, hd, rfl⟩ := hc
    have : d < 10 := Nat.digits_lt_base (by norm_num) hd
    simp [isDigitByte]
    omega

theorem printNat_ne_nil (n : Nat) : printNat n ≠ [] := by
  unfold printNat
  by_cases h0 : n = 0
  · simp [h0]
  · rw [if_neg h0]
    simp only [ne_eq, List.map_eq_nil_iff, List.reverse_eq_nil_iff]
    exact Nat.digits_ne_nil_iff_ne_zero.mpr h0

theorem readNat_append (n : Nat) (rest : List Nat)
    (hrest : isDigitByte (rest.headD 0) = false) :
    readNat (printNat n ++ rest) = some (n, rest) := by
  have htw := takeWhile_append_all (printNat n) rest (printNat_digits n) hrest
  unfold readNat
  rw [htw.1, htw.2, if_neg (printNat_ne_nil n)]
  congr 1
  congr 1
  unfold printNat
  by_cases h0 : n = 0
  · simp [h0, Nat.ofDigits]
  · rw [if_neg h0]
    rw [List.map_map]
    have : ((· - 48) ∘ (· + 48) : Nat → Nat) = id := by
      funext x
      simp
    rw [this, List.map_id, List.reverse_reverse, Nat.ofDigits_digits]



theorem readHead_append (version ca pt sym : List Nat) (rest : List Nat)
    (h1 : ∀ c ∈ version, c ≠ 34) (h2 : ∀ c ∈ ca, c ≠ 34)
    (h3 : ∀ c ∈ pt, c ≠ 34) (h4 : ∀ c ∈ sym, c ≠ 34) :
    readHead (printHeadFields version ca pt sym ++ rest) =
      some (⟨version, ca, pt, sym⟩, rest) := by
  unfold printHeadFields readHead
  simp only [List.append_assoc]
  rw [stripPre_append]
  simp only [Option.some_bind]
  rw [readStr_append _ _ h1]
  simp only [Option.some_bind]
  rw [stripPre_append]
  simp only [Option.some_bind]
  rw [readStr_append _ _ h2]
  simp only [Option.some_bind]
  rw [stripPre_append]
  simp only [Option.some_bind]
  rw [readStr_append _ _ h3]
  simp only [Option.some_bind]
  rw [stripPre_append]
  simp only [Option.some_bind]
  rw [readStr_append _ _ h4]
  simp only [Option.some_bind]

theorem readPermit_append (dl v : Nat) (r s : List Nat) (rest : List Nat)
    (hr : ∀ c ∈ r, c ≠ 34) (hs : ∀ c ∈ s, c ≠ 34) :
    readPermit (printPermit dl v r s ++ rest) = some (⟨dl, v, r, s⟩, rest) := by
  unfold printPermit readPermit
  simp only [List.append_assoc]
  rw [stripPre_append]
  simp only [Option.some_bind]
  rw [readNat_append _ _ (by rfl)]
  simp only [Option.some_bind]
  rw [stripPre_append]
  simp only [Option.some_bind]
  rw [readNat_append _ _ (by rfl)]
  simp only [Option.some_bind]
  rw [stripPre_append]
  simp only [Option.some_bind]
  rw [readStr_append _ _ hr]
  simp only [Option.some_bind]
  rw [stripPre_append]
  simp only [Option.some_bind]
  rw [readStr_append _ _ hs]
  simp only [Option.some_bind]
  rw [stripPre_append]
  simp only [Option.some_bind]

theorem readOptStr_append (o : Option (List Nat)) (rest : List Nat)
    (ho : ∀ s', o = some s' → ∀ c ∈ s', c ≠ 34) :
    readOptStr (printOptStr o ++ rest) = some (o, rest) := by
  cases o with
  | none =>
    unfold printOptStr readOptStr
    rw [stripPre_append]
  | some s' =>
    unfold printOptStr readOptStr
    have hnone : stripPre (printStr s' ++ rest) (lit "null") = none := rfl
    rw [hnone, readStr_append _ _ (ho s' rfl)]
    rfl

theorem jsonParse_print (p : X402PaymentProof)
    (h1 : ∀ c ∈ p.version, c ≠ 34) (h2 : ∀ c ∈ p.client_address, c ≠ 34)
    (h3 : ∀ c ∈ p.payment_token, c ≠ 34) (h4 : ∀ c ∈ p.payment_token_symbol, c ≠ 34)
    (hr : ∀ c ∈ p.permit_signature.r, c ≠ 34) (hs : ∀ c ∈ p.permit_signature.s, c ≠ 34)
    (hsid : ∀ s', p.settlement_id = some s' → ∀ c ∈ s', c ≠ 34) :
    jsonParseProof (jsonPrintProof p) = some p := by
  unfold jsonPrintProof jsonParseProof
  simp only [List.append_assoc]
  rw [readHead_append _ _ _ _ _ h1 h2 h3 h4]
  simp only [Option.some_bind]
  rw [stripPre_append]
  simp only [Option.some_bind]
  rw [readNat_append _ _ (by rfl)]
  simp only [Option.some_bind]
  rw [stripPre_append]
  simp only [Option.some_bind]
  rw [readPermit_append _ _ _ _ _ hr hs]
  simp only [Option.some_bind]
  rw [stripPre_append]
  simp only [Option.some_bind]
  rw [readNat_append _ _ (by rfl)]
  simp only [Option.some_bind]
  rw [stripPre_append]
  simp only [Option.some_bind]
  rw [readOptStr_append _ _ hsid]
  simp only [Option.some_bind]
  rfl


theorem jsonSafe_ne_34 {c : Nat} (h : jsonSafeByte c = true) : c ≠ 34 := by
  intro hc
  subst hc
  exact absurd h (by decide)

theorem jsonSafe_lt_256 {c : Nat} (h : jsonSafeByte c = true) : c < 256 := by
  have := of_decide_eq_true h
  omega

theorem mem_printStr_lt (s : List Nat) (hsafe : s.all jsonSafeByte = true) :
    ∀ x ∈ printStr s, x < 256 := by
  intro x hx
  unfold printStr at hx
  rcases List.mem_cons.mp hx with h | h
  · omega
  · rcases List.mem_append.mp h with h' | h'
    · exact jsonSafe_lt_256 (List.all_eq_true.mp hsafe x h')
    · simp only [List.mem_singleton] at h'
      omega

theorem mem_printNat_lt (n : Nat) : ∀ x ∈ printNat n, x < 256 := by
  intro x hx
  have := printNat_digits n x hx
  unfold isDigitByte at this
  have := of_decide_eq_true this
  omega

theorem mem_printOptStr_lt (o : Option (List Nat)) (hsafe : jsonSafeOptStr o = true) :
    ∀ x ∈ printOptStr o, x < 256 := by
  cases o with
  | none => intro x hx; revert x; decide
  | some s' =>
    exact mem_printStr_lt s' (by simpa [jsonSafeOptStr] using hsafe)

theorem jsonPrint_bytes_lt (p : X402PaymentProof) (hwf : WFProof p = true) :
    ∀ x ∈ jsonPrintProof p, x < 256 := by
  unfold WFProof at hwf
  simp only [Bool.and_eq_true] at hwf
  obtain ⟨⟨⟨⟨⟨⟨w1, w2⟩, w3⟩, w4⟩, w5⟩, w6⟩, w7⟩ := hwf
  intro x hx
  unfold jsonPrintProof printHeadFields printPermit at hx
  simp only [List.append_assoc, List.mem_append] at hx
  rcases hx with h | h | h | h | h | h | h | h | h | h | h | h | h | h | h | h | h | h | h | h | h | h | h | h | h
  · exact (by decide : ∀ y ∈ lit "\x7b\"version\":", y < 256) x h
  · exact mem_printStr_lt _ w1 x h
  · exact (by decide : ∀ y ∈ lit ",\"client_address\":", y < 256) x h
  · exact mem_printStr_lt _ w2 x h
  · exact (by decide : ∀ y ∈ lit ",\"payment_token\":", y < 256) x h
  · exact mem_printStr_lt _ w3 x h
  · exact (by decide : ∀ y ∈ lit ",\"payment_token_symbol\":", y < 256) x h
  · exact mem_printStr_lt _ w4 x h
  · exact (by decide : ∀ y ∈ lit ",\"max_payment_amount\":", y < 256) x h
  · exact mem_printNat_lt _ x h
  · exact (by decide : ∀ y ∈ lit ",\"permit_signature\":", y < 256) x h
  · exact (by decide : ∀ y ∈ lit "\x7b\"deadline\":", y < 256) x h
  · exact mem_printNat_lt _ x h
  · exact (by decide : ∀ y ∈ lit ",\"v\":", y < 256) x h
  · exact mem_printNat_lt _ x h
  · exact (by decide : ∀ y ∈ lit ",\"r\":", y < 256) x h
  · exact mem_printStr_lt _ w5 x h
  · exact (by decide : ∀ y ∈ lit ",\"s\":", y < 256) x h
  · exact mem_printStr_lt _ w6 x h
  · exact (by decide : ∀ y ∈ lit "\x7d", y < 256) x h
  · exact (by decide : ∀ y ∈ lit ",\"timestamp\":", y < 256) x h
  · exact mem_printNat_lt _ x h
  · exact (by decide : ∀ y ∈ lit ",\"settlement_id\":", y < 256) x h
  · exact mem_printOptStr_lt _ w7 x h
  · exact (by decide : ∀ y ∈ lit "\x7d", y < 256) x h


theorem safe_all_ne_34 {s : List Nat} (h : s.all jsonSafeByte = true) :
    ∀ c ∈ s, c ≠ 34 :=
  fun c hc => jsonSafe_ne_34 (List.all_eq_true.mp h c hc)

theorem parse_create_header (p : X402PaymentProof) (hwf : WFProof p = true) :
    parseX402PaymentHeader (createX402PaymentHeader p) = some p := by
  have hwf' := hwf
  unfold WFProof at hwf'
  simp only [Bool.and_eq_true] at hwf'
  obtain ⟨⟨⟨⟨⟨⟨w1, w2⟩, w3⟩, w4⟩, w5⟩, w6⟩, w7⟩ := hwf'
  unfold createX402PaymentHeader parseX402PaymentHeader
  rw [if_pos (List.isPrefixOf_iff_prefix.mpr (List.prefix_append _ _))]
  rw [show (lit "x402 " ++ b64encode (jsonPrintProof p)).drop 5 =
    b64encode (jsonPrintProof p) from by
      rw [show (5 : Nat) = (lit "x402 ").length from rfl, List.drop_left]]
  rw [b64_roundtrip _ (jsonPrint_bytes_lt p hwf)]
  exact jsonParse_print p (safe_all_ne_34 w1) (safe_all_ne_34 w2) (safe_all_ne_34 w3)
    (safe_all_ne_34 w4) (safe_all_ne_34 w5) (safe_all_ne_34 w6)
    (fun s' hs' => safe_all_ne_34 (by
      cases hcase : p.settlement_id with
      | none => rw [hcase] at hs'; exact Option.noConfusion hs'
      | some t =>
        rw [hcase] at hs'
        injection hs' with ht
        subst ht
        simpa [jsonSafeOptStr, hcase] using w7))

theorem parse_header_no_prefix (h : List Nat)
    (hpre : (lit "x402 ").isPrefixOf h = false) :
    parseX402PaymentHeader h = none := by
  unfold parseX402PaymentHeader
  rw [if_neg (by simp [hpre])]


/-- C10: the X-PAYMENT header codec round-trips — for every payment proof
(with JSON-safe ASCII string fields, as the system produces)
`parse_x402_payment_header (create_x402_payment_header p)` returns exactly
`p` — and the parser is total, returning `None` (never raising) for any
header that does not start with the literal prefix `"x402 "`. -/
theorem c10_header_roundtrip :
    (∀ p : X402PaymentProof, WFProof p = true →
        parseX402PaymentHeader (createX402PaymentHeader p) = some p) ∧
    (∀ h : List Nat, (lit "x402 ").isPrefixOf h = false →
        parseX402PaymentHeader h = none) :=
  ⟨parse_create_header, parse_header_no_prefix⟩

/-- C10 witness: the concrete proof `pEx` round-trips through the header
encoding, and a `Bearer` header is rejected with `None`. -/
theorem c10_header_roundtrip_witness :
    WFProof pEx = true ∧
    parseX402PaymentHeader (createX402PaymentHeader pEx) = some pEx ∧
    ((lit "x402 ").isPrefixOf (lit "Bearer abc") = false ∧
      parseX402PaymentHeader (lit "Bearer abc") = none) :=
  ⟨by decide, c10_header_roundtrip.1 pEx (by decide),
   by decide, c10_header_roundtrip.2 (lit "Bearer abc") (by decide)⟩

end X402
